import Mathlib

/-!
Verification development for the redux-sessionstorage-simple middleware.

The source is a small JavaScript module exporting four public operations
(save, load, clear, combineLoads) over the browser sessionStorage, plus
three internal helpers (warn, lensPath, realiseObject).  We embed the
JavaScript semantics shallowly:

  * JavaScript values are the inductive `JVal` (numbers carry the
    IEEE-observable cases the module distinguishes: finite rationals,
    NaN and the infinities — the module only ever tests typeof,
    isFinite, floor-idempotence and truthiness, all of which this
    carries faithfully);
  * property access `obj[k]` is `getProp`, which faults (TypeError) on
    null and undefined exactly as JavaScript does, returns own fields of
    objects, index and length lookups on arrays, length on strings, and
    undefined on other primitives;
  * sessionStorage is an association list `Store` of string keys and
    string values; every storage access an operation performs is
    recorded in an explicit `StorageOp` trace so that frame conditions
    can be proved about what was read, written or removed;
  * JSON.stringify / JSON.parse are host collaborators: the operations
    take them as explicit function parameters;
  * fallible computations return `Except JsErr`, a thrown TypeError
    being the only fault the embedded code can produce.
-/

/-- The observable classes of a JavaScript number needed by this module:
finite numbers (as exact rationals), NaN, and the two infinities. -/
inductive JNum where
  | fin : Rat → JNum
  | nan : JNum
  | posInf : JNum
  | negInf : JNum
deriving DecidableEq, Repr

/-- JavaScript values as the module observes them.  Objects are ordered
association lists of own enumerable fields (JavaScript objects have
unique keys; construction below preserves that). -/
inductive JVal where
  | undefined : JVal
  | null : JVal
  | bool : Bool → JVal
  | num : JNum → JVal
  | str : String → JVal
  | arr : List JVal → JVal
  | obj : List (String × JVal) → JVal

/-- The only fault the embedded code can raise: a TypeError from
accessing a property of null or undefined, or calling a string method
on a non-string. -/
inductive JsErr where
  | typeError : JsErr
deriving DecidableEq, Repr

/-- JavaScript truthiness: undefined, null, false, 0, NaN and the empty
string are falsy; every other value is truthy. -/
def truthy : JVal → Bool
  | .undefined => false
  | .null => false
  | .bool b => b
  | .num (.fin q) => decide (q ≠ 0)
  | .num .nan => false
  | .num .posInf => true
  | .num .negInf => true
  | .str s => decide (s ≠ "")
  | .arr _ => true
  | .obj _ => true

/-- Source `isArray` (Object.prototype.toString tag check). -/
def isArray : JVal → Bool
  | .arr _ => true
  | _ => false

/-- Source `isString` (typeof check). -/
def isString : JVal → Bool
  | .str _ => true
  | _ => false

/-- Source `isInteger`: typeof number, finite, and floor-idempotent.
Note there is no sign check: negative integers satisfy it. -/
def isInteger : JVal → Bool
  | .num (.fin q) => decide (q.den = 1)
  | _ => false

/-- Source `isObject`: non-null and typeof object (arrays included). -/
def isObject : JVal → Bool
  | .null => false
  | .obj _ => true
  | .arr _ => true
  | _ => false

/-- First binding of a key in an association list of object fields. -/
def jsLookup (fields : List (String × JVal)) (k : String) : Option JVal :=
  match fields.find? (fun kv => kv.1 = k) with
  | some kv => some kv.2
  | none => none

/-- JavaScript assignment `o[k] = v` on an object: overwrite the
existing binding in place, else append a new binding (insertion order
is preserved, matching enumeration order). -/
def setKey (fields : List (String × JVal)) (k : String) (v : JVal) :
    List (String × JVal) :=
  if fields.any (fun kv => kv.1 = k) then
    fields.map (fun kv => if kv.1 = k then (k, v) else kv)
  else
    fields ++ [(k, v)]

/-- Digit list parse for canonical array indices. -/
def parseIndexAux : List Char → Nat → Option Nat
  | [], acc => some acc
  | c :: rest, acc =>
      if c.isDigit then parseIndexAux rest (acc * 10 + (c.toNat - 48))
      else none

/-- A string is a canonical array index when it is a non-empty digit
string with no leading zero (except "0" itself); returns its value. -/
def parseIndex (s : String) : Option Nat :=
  match s.data with
  | [] => none
  | c :: rest =>
      if c = '0' then (if rest = [] then some 0 else none)
      else parseIndexAux (c :: rest) 0

/-- JavaScript property read `obj[k]`.  Throws TypeError on null and
undefined; own-field lookup on objects (absent field gives undefined);
canonical index or length on arrays; length on strings; undefined on
the remaining primitives (their wrapper-object methods are never
observed by this module). -/
def getProp : JVal → String → Except JsErr JVal
  | .undefined, _ => .error .typeError
  | .null, _ => .error .typeError
  | .obj fields, k =>
      .ok (match jsLookup fields k with
           | some v => v
           | none => .undefined)
  | .arr xs, k =>
      if k = "length" then .ok (.num (.fin (xs.length : Rat)))
      else .ok (match parseIndex k with
                | some i =>
                    match xs.get? i with
                    | some v => v
                    | none => .undefined
                | none => .undefined)
  | .str s, k =>
      if k = "length" then .ok (.num (.fin (s.length : Rat)))
      else .ok .undefined
  | .bool _, _ => .ok .undefined
  | .num _, _ => .ok .undefined

/-- Source `lensPath`: returns null when the current object is
undefined; on a one-segment path reads the property directly (which
throws on a null object); otherwise reads the head segment and recurses
on the tail.  The empty path never arises: every call site passes the
result of a split, which is non-empty. -/
def lensPath : List String → JVal → Except JsErr JVal
  | _, .undefined => .ok .null
  | [], _ => .ok .null
  | [p], obj => getProp obj p
  | p :: q :: rest, obj =>
      match getProp obj p with
      | .error e => .error e
      | .ok v => lensPath (q :: rest) v

/-- Split of a character list at every occurrence of a separator,
keeping empty pieces, as JavaScript String.split does. -/
def splitChar (sep : Char) : List Char → List (List Char)
  | [] => [[]]
  | c :: rest =>
      let r := splitChar sep rest
      if c = sep then [] :: r
      else
        match r with
        | h :: t => (c :: h) :: t
        | [] => [[c]]

/-- JavaScript `s.split(sep)` for a single-character separator: the
result is always non-empty, and the empty string splits to [""]. -/
def jsSplit (s : String) (sep : Char) : List String :=
  (splitChar sep s.data).map (fun l => String.mk l)

/-- Inner helper of `realiseObject`: folds the reversed segment list,
wrapping the object in progress one segment at a time. -/
def realiseObjectAux : List String → JVal → JVal
  | [], objectInProgress => objectInProgress
  | seg :: rest, objectInProgress =>
      realiseObjectAux rest (.obj [(seg, objectInProgress)])

/-- Source `realiseObject`: split the path on dots, reverse, and build
the nested object from the innermost segment outward. -/
def realiseObject (objectPath : String) (objectInitialValue : JVal) : JVal :=
  realiseObjectAux (jsSplit objectPath '.').reverse objectInitialValue

/-- Rendering of a number by JavaScript string coercion.  Integral
finite values render exactly as in JavaScript; the decimal notation of
non-integral values is abbreviated to numerator/denominator form, which
no operation in this module ever observes. -/
def jnumToString : JNum → String
  | .nan => "NaN"
  | .posInf => "Infinity"
  | .negInf => "-Infinity"
  | .fin q =>
      if q.den = 1 then toString q.num
      else toString q.num ++ "/" ++ toString q.den

/-- JavaScript string coercion, used when a non-string value is
concatenated into a storage key.  Arrays join their coerced elements
with commas (null and undefined joining as empty); plain objects render
as the standard object tag. -/
def jsToString : JVal → String
  | .undefined => "undefined"
  | .null => "null"
  | .bool b => cond b "true" "false"
  | .num n => jnumToString n
  | .str s => s
  | .obj _ => "[object Object]"
  | .arr xs =>
      String.intercalate ","
        (xs.attach.map fun x =>
          match x with
          | ⟨.undefined, _⟩ => ""
          | ⟨.null, _⟩ => ""
          | ⟨v, _⟩ => jsToString v)

/-- The sessionStorage collaborator: an ordered association list of
string keys and string values, unique keys. -/
abbrev Store : Type := List (String × String)

/-- Storage read, as sessionStorage.getItem: the stored string, or none
when the key is absent (JavaScript null). -/
def Store.getItem (store : Store) (k : String) : Option String :=
  match List.find? (fun kv => kv.1 = k) store with
  | some kv => some kv.2
  | none => none

/-- Storage write, as assignment to a sessionStorage slot: overwrite in
place or append. -/
def Store.setItem (store : Store) (k : String) (v : String) : Store :=
  if List.any store (fun kv => kv.1 = k) then
    List.map (fun kv => if kv.1 = k then (k, v) else kv) store
  else
    store ++ [(k, v)]

/-- Storage delete, as sessionStorage.removeItem. -/
def Store.removeItem (store : Store) (k : String) : Store :=
  List.filter (fun kv => !(decide (kv.1 = k))) store

/-- One storage access performed by an operation, recorded in order of
execution. -/
inductive StorageOp where
  | get : String → StorageOp
  | set : String → String → StorageOp
  | remove : String → StorageOp
deriving DecidableEq, Repr

/-- Effect of one recorded storage access on the store; reads leave it
unchanged. -/
def applyOp (store : Store) : StorageOp → Store
  | .get _ => store
  | .set k v => store.setItem k v
  | .remove k => store.removeItem k

/-- Effect of a whole recorded trace on the store. -/
def applyOps (store : Store) (ops : List StorageOp) : Store :=
  ops.foldl applyOp store

/-- Truthiness of a sessionStorage read result: absent keys read as
undefined (falsy) and the empty string is falsy. -/
def truthyItem : Option String → Bool
  | none => false
  | some s => decide (s ≠ "")

def MODULE_NAME : String := "[Redux-SessionStorage-Simple]"

def NAMESPACE_DEFAULT : String := "redux_sessionstorage_simple"

def STATES_DEFAULT : List JVal := []

def DEBOUNCE_DEFAULT : JVal := .num (.fin 0)

/-- Source `warn`: the list of messages the call hands to console.warn
(empty when warnings are disabled; the disableWarnings flag is tested
for truthiness, as JavaScript negation does). -/
def warnCall (disableWarnings : JVal) (warningMessage : String) : List String :=
  if !(truthy disableWarnings) then [warningMessage] else []

def statesErrSaveMsg : String :=
  "\x27states\x27 parameter in \x27save()\x27 method was passed a non-array value. Setting default value instead. Check your \x27save()\x27 method."

def namespaceErrSaveMsg : String :=
  "\x27namespace\x27 parameter in \x27save()\x27 method was passed a non-string value. Setting default value instead. Check your \x27save()\x27 method."

def debounceErrSaveMsg : String :=
  "\x27debounce\x27 parameter in \x27save()\x27 method was passed a non-integer value. Setting default value instead. Check your \x27save()\x27 method."

def statesErrLoadMsg : String :=
  "\x27states\x27 parameter in \x27load()\x27 method was passed a non-array value. Setting default value instead. Check your \x27load()\x27 method."

def namespaceErrLoadMsg : String :=
  "\x27namespace\x27 parameter in \x27load()\x27 method was passed a non-string value. Setting default value instead. Check your \x27load()\x27 method."

def namespaceErrClearMsg : String :=
  "\x27namespace\x27 parameter in \x27clear()\x27 method was passed a non-string value. Setting default value instead. Check your \x27clear()\x27 method."

def combineLoadsErrMsg : String :=
  "One or more loads provided to \x27combineLoads()\x27 is not a valid object. Ignoring the invalid load/s. Check your \x27combineLoads()\x27 method."

def immutablejsMsg : String :=
  "Support for Immutable.js data structures has been deprecated as of version 2.0.0. Please use version 1.4.0 if you require this functionality."

/-- Advisory message for a missing per-path key in load. -/
def invalidLoadMsg (key : String) : String :=
  "Invalid load \x27" ++ key ++ "\x27 provided. Check your \x27states\x27 in \x27load()\x27. If this is your first time running this app you may see this message. To disable it in future use the \x27disableWarnings\x27 flag, see documentation."

/-- Source `getStateForSessionStorage` inside save: split the selector
on dots and read through the lens; a one-segment selector is looked up
as a single-element path. -/
def getStateForSessionStorage (state : String) (rootState : JVal) :
    Except JsErr JVal :=
  if (jsSplit state '.').length > 1 then
    lensPath (jsSplit state '.') rootState
  else
    lensPath [state] rootState

/-- Per-path loop of the source `_save`: for each selector, resolve it
against the root state; a truthy resolution is written under the
namespaced key, otherwise the namespaced key is removed.  A non-string
selector faults when split is called on it, and a faulting lens read
propagates, aborting the remaining selectors. -/
def savePerPathAux (stringify : JVal → String) (ns : String) (root : JVal) :
    List JVal → List StorageOp → Except JsErr (List StorageOp)
  | [], acc => .ok acc
  | sv :: rest, acc =>
      match sv with
      | .str s =>
          match getStateForSessionStorage s root with
          | .error e => .error e
          | .ok v =>
              if truthy v then
                savePerPathAux stringify ns root rest
                  (acc ++ [.set (ns ++ "_" ++ s) (stringify v)])
              else
                savePerPathAux stringify ns root rest
                  (acc ++ [.remove (ns ++ "_" ++ s)])
      | _ => .error .typeError

/-- Source `_save`: with no selectors, the whole state tree is written
under the bare namespace key; otherwise each selector is processed by
the per-path loop.  The result is the ordered trace of storage accesses
performed.  JSON.stringify is a host collaborator passed in. -/
def saveToStorage (stringify : JVal → String) (states : List JVal)
    (ns : String) (root : JVal) : Except JsErr (List StorageOp) :=
  if states.length = 0 then .ok [.set ns (stringify root)]
  else savePerPathAux stringify ns root states []

/-- Result of a load call: the returned state, the ordered storage
trace, the console.warn messages, the console.error messages, and
whether a TypeError aborted the selector loop. -/
structure LoadResult where
  state : JVal
  ops : List StorageOp
  warns : List String
  errs : List String
  threw : Bool

/-- Modelled from the spec: the source imports the external npm package
object-merge, which is not part of this repository.  Spec section 4.3
(Shallow Merge) specifies the contract actually relied on: for each
top-level key of b, overwrite that key in a copy of a, insert if
absent.  The contract only covers mappings; non-mapping arguments
contribute no fields. -/
def entriesOf : JVal → List (String × JVal)
  | .obj fs => fs
  | _ => []

/-- Modelled from the spec: shallow top-level merge, later fields
overwriting earlier ones (spec section 4.3). -/
def objectMerge (a b : JVal) : JVal :=
  .obj ((entriesOf b).foldl (fun acc kv => setKey acc kv.1 kv.2) (entriesOf a))

/-- Body of the per-selector forEach in load.  The namespaced key is
the string concatenation JavaScript performs (coercing a non-string
selector); a truthy stored item is parsed, realised at the selector
path and merged in (a non-string selector then faults in split,
aborting the loop); a falsy item leaves the state unchanged and emits
the advisory warning. -/
def loadStep (parse : String → JVal) (nss : String) (dw : JVal)
    (store : Store) (acc : LoadResult) (sv : JVal) : LoadResult :=
  if acc.threw then acc
  else
    let key := nss ++ "_" ++ jsToString sv
    if truthyItem (store.getItem key) then
      match sv with
      | .str s =>
          { acc with
            state := objectMerge acc.state
              (realiseObject s (parse ((store.getItem key).getD ""))),
            ops := acc.ops ++ [.get key, .get key] }
      | _ => { acc with ops := acc.ops ++ [.get key, .get key], threw := true }
    else
      { acc with
        ops := acc.ops ++ [.get key],
        warns := acc.warns ++ warnCall dw (invalidLoadMsg key) }

/-- Branching part of load, after validation: whole-tree mode reads
the bare namespace key (twice when truthy, for the condition and the
parse argument), per-path mode folds the per-selector loop. -/
def loadBody (parse : String → JVal) (nss : String) (disableWarnings : JVal)
    (store : Store) (statesV : List JVal) (base : LoadResult) : LoadResult :=
  if statesV.length = 0 then
    if truthyItem (store.getItem nss) then
      { base with state := parse ((store.getItem nss).getD ""),
                  ops := [.get nss, .get nss] }
    else
      { base with ops := [.get nss] }
  else
    statesV.foldl (loadStep parse nss disableWarnings store) base

/-- Source `load`: validate the states and namespace options (console
errors, fallback to defaults), emit the deprecation warning if the
immutablejs flag is literally true, then either read the whole tree
from the bare namespace key or fold the per-selector loop over the
selectors, starting from the preloaded state.  JSON.parse is a host
collaborator passed in. -/
def load (parse : String → JVal) (states ns immutablejs preloadedState
    disableWarnings : JVal) (store : Store) : LoadResult :=
  let errs1 := if !(isArray states) then [statesErrLoadMsg] else []
  let statesV : List JVal := match states with | .arr xs => xs | _ => STATES_DEFAULT
  let errs2 := if !(isString ns) then [namespaceErrLoadMsg] else []
  let nss : String := match ns with | .str s => s | _ => NAMESPACE_DEFAULT
  let warns0 : List String := match immutablejs with
    | .bool true => warnCall disableWarnings immutablejsMsg
    | _ => []
  let base : LoadResult :=
    { state := preloadedState, ops := [], warns := warns0,
      errs := errs1 ++ errs2, threw := false }
  loadBody parse nss disableWarnings store statesV base

/-- Keys a for-in enumeration visits with their values: the own fields
of an object in insertion order, the index strings of an array in
ascending order. -/
def entriesForIn : JVal → List (String × JVal)
  | .obj fs => fs
  | .arr xs => xs.enum.map (fun p => (toString p.1, p.2))
  | _ => []

/-- Replacement the source applies to an invalid combineLoads
argument: anything that is not a non-null object becomes the empty
object. -/
def validifyLoad (l : JVal) : JVal := if !(isObject l) then JVal.obj [] else l

/-- The for-in assignment loop of combineLoads: assign every enumerated
key of one argument into the accumulated fields. -/
def assignEntries (acc : List (String × JVal)) (l : JVal) :
    List (String × JVal) :=
  (entriesForIn l).foldl (fun flds kv => setKey flds kv.1 kv.2) acc

/-- Source `combineLoads`: fold the arguments left to right into one
object by per-key assignment (later arguments overwrite); an argument
that is not a non-null object is replaced by the empty object and a
console error is recorded, and processing continues.  Returns the
combined object and the recorded console errors. -/
def combineLoads (loads : List JVal) : JVal × List String :=
  let r := loads.foldl
    (fun (acc : List (String × JVal) × List String) (l : JVal) =>
      let errs := if !(isObject l) then acc.2 ++ [combineLoadsErrMsg] else acc.2
      (assignEntries acc.1 (validifyLoad l), errs))
    ([], [])
  (.obj r.1, r.2)

/-- JavaScript `key.slice(0, n)`: the first n characters, the whole
string when it is shorter. -/
def jsSliceTo (s : String) (n : Nat) : String := String.mk (s.data.take n)

/-- Source `clear`: validate the namespace option (console error,
fallback to default), then remove every stored key whose leading slice
of namespace length equals the namespace.  Returns the resulting store
and the recorded console errors. -/
def clear (ns : JVal) (store : Store) : Store × List String :=
  let errs := if !(isString ns) then [namespaceErrClearMsg] else []
  let nss : String := match ns with | .str s => s | _ => NAMESPACE_DEFAULT
  (List.filter (fun kv => !(decide (jsSliceTo kv.1 nss.length = nss))) store,
   errs)

/-- The values a scheduled save closure carries: the validated selector
list and namespace of the dispatch that scheduled it. -/
structure SavePayload where
  states : List JVal
  ns : String

/-- One timer registered with the host scheduler: its handle, whether
it is still pending (false once fired or cancelled), and the save it
would perform. -/
structure TimerEntry where
  id : Nat
  active : Bool
  payload : SavePayload

/-- One execution of the internal save procedure, with the state tree
read (fresh) when it ran. -/
structure SaveExec where
  payload : SavePayload
  stateAtSave : JVal

/-- The temporal state the save pipeline touches: the host scheduler
(timer list and next fresh handle), the module-level debounceTimeout
variable, and the log of save executions. -/
structure World where
  nextId : Nat
  timers : List TimerEntry
  debounceTimeout : Option Nat
  saveLog : List SaveExec

/-- Initial world: no timers, debounceTimeout is null, nothing saved.
Handles start at 1, so a stored handle is always truthy as in the
source test `if (debounceTimeout)`. -/
def W0 : World :=
  { nextId := 1, timers := [], debounceTimeout := none, saveLog := [] }

/-- Host clearTimeout: deactivate the timer with the given handle; a
stale or unknown handle is a no-op. -/
def clearTimeoutW (w : World) (id : Nat) : World :=
  { w with timers :=
      w.timers.map (fun t => if t.id = id then { t with active := false } else t) }

/-- Raw configuration of one save middleware. -/
structure SaveCfg where
  states : JVal
  ns : JVal
  debounce : JVal

/-- Validation of the states option in save: fall back to the default
empty list on a non-array, reporting a console error (second
component). -/
def validStates (v : JVal) : List JVal × Bool :=
  match v with
  | .arr xs => (xs, false)
  | _ => (STATES_DEFAULT, true)

/-- Validation of the namespace option: fall back to the default
namespace on a non-string, reporting a console error. -/
def validNamespace (v : JVal) : String × Bool :=
  match v with
  | .str s => (s, false)
  | _ => (NAMESPACE_DEFAULT, true)

/-- Validation of the debounce option: fall back to the default 0 on a
value failing `isInteger`, reporting a console error. -/
def validDebounce (v : JVal) : JVal × Bool :=
  if isInteger v then (v, false) else (DEBOUNCE_DEFAULT, true)

/-- One dispatch through the save middleware: validate the options,
then either (truthy debounce) clear the previously stored timeout
handle and schedule a fresh timer carrying the validated payload,
storing its handle in debounceTimeout, or (falsy debounce) run the
save synchronously against the state read at dispatch. -/
def saveDispatch (cfg : SaveCfg) (curState : JVal) (w : World) : World :=
  let sts := (validStates cfg.states).1
  let nss := (validNamespace cfg.ns).1
  let db := (validDebounce cfg.debounce).1
  if truthy db then
    let w1 := match w.debounceTimeout with
      | some id => clearTimeoutW w id
      | none => w
    { w1 with
      nextId := w1.nextId + 1,
      timers := w1.timers ++ [{ id := w1.nextId, active := true,
                                payload := { states := sts, ns := nss } }],
      debounceTimeout := some w1.nextId }
  else
    { w with saveLog := w.saveLog ++
        [{ payload := { states := sts, ns := nss }, stateAtSave := curState }] }

/-- A scheduled timer fires: if its handle is still pending, it is
retired and the carried save runs against the state read at fire time;
a cancelled or already-fired handle does nothing. -/
def fireTimer (id : Nat) (curState : JVal) (w : World) : World :=
  match w.timers.find? (fun t => t.id = id) with
  | some t =>
      if t.active then
        { w with
          timers := w.timers.map
            (fun u => if u.id = id then { u with active := false } else u),
          saveLog := w.saveLog ++
            [{ payload := t.payload, stateAtSave := curState }] }
      else w
  | none => w

/-- An event the save pipeline world can experience: a middleware
dispatch (with the state tree at that instant) or a timer firing (with
the state tree at that instant). -/
inductive WStep where
  | dispatch : SaveCfg → JVal → WStep
  | fire : Nat → JVal → WStep

def stepWorld (w : World) : WStep → World
  | .dispatch cfg st => saveDispatch cfg st w
  | .fire id st => fireTimer id st w

/-- Run a sequence of events from a world. -/
def runWorld (w : World) (l : List WStep) : World := l.foldl stepWorld w

/-- The timers still pending in a world. -/
def activeTimers (w : World) : List TimerEntry :=
  w.timers.filter (fun t => t.active)

/-- Nested single-field objects built from a segment list, innermost
value first: the shape the spec describes for the Path Realizer. -/
def nestSegs (segs : List String) (v : JVal) : JVal :=
  segs.foldr (fun s acc => .obj [(s, acc)]) v

mutual

/-- A value containing no null anywhere (undefined is allowed). -/
def nullFree : JVal → Bool
  | .undefined => true
  | .null => false
  | .bool _ => true
  | .num _ => true
  | .str _ => true
  | .arr xs => nullFreeList xs
  | .obj fs => nullFreeFields fs

/-- Null-freeness of every element of an array. -/
def nullFreeList : List JVal → Bool
  | [] => true
  | v :: rest => nullFree v && nullFreeList rest

/-- Null-freeness of every field value of an object. -/
def nullFreeFields : List (String × JVal) → Bool
  | [] => true
  | (_, v) :: rest => nullFree v && nullFreeFields rest

end

theorem realiseObjectAux_eq_foldr (l : List String) (v : JVal) :
    realiseObjectAux l v = nestSegs l.reverse v := by
  induction l generalizing v with
  | nil => rfl
  | cons s l ih =>
      simp only [realiseObjectAux, ih, nestSegs, List.reverse_cons,
        List.foldr_append, List.foldr_cons, List.foldr_nil]

theorem realiseObject_eq_nestSegs (p : String) (v : JVal) :
    realiseObject p v = nestSegs (jsSplit p '.') v := by
  simp only [realiseObject, realiseObjectAux_eq_foldr, List.reverse_reverse]

theorem splitChar_ne_nil (sep : Char) (l : List Char) :
    splitChar sep l ≠ [] := by
  cases l with
  | nil => simp [splitChar]
  | cons c rest =>
      simp only [splitChar]
      split
      · simp
      · split
        · simp_all
        · simp

theorem jsSplit_ne_nil (s : String) (sep : Char) : jsSplit s sep ≠ [] := by
  simp only [jsSplit, ne_eq, List.map_eq_nil_iff]
  exact splitChar_ne_nil sep s.data

theorem lensPath_nestSegs (segs : List String) (v : JVal)
    (h : segs ≠ []) : lensPath segs (nestSegs segs v) = .ok v := by
  induction segs with
  | nil => exact absurd rfl h
  | cons s rest ih =>
      cases rest with
      | nil => simp [nestSegs, lensPath, getProp, jsLookup]
      | cons t more =>
          have : nestSegs (s :: t :: more) v =
              .obj [(s, nestSegs (t :: more) v)] := rfl
          rw [this]
          have hrec := ih (by simp)
          simpa [lensPath, getProp, jsLookup] using hrec

/-- C5: the Path Realizer splits its path on dots and builds the nested
mapping from the innermost segment outward; in particular
realiseObject "a.b.c" v is the three-level nesting and
realiseObject "x" v the one-level one, for every leaf value v. -/
theorem realiseObject_builds_nested_mapping (p : String) (v : JVal) :
    realiseObject p v = nestSegs (jsSplit p '.') v ∧
    realiseObject "a.b.c" v =
      .obj [("a", .obj [("b", .obj [("c", v)])])] ∧
    realiseObject "x" v = .obj [("x", v)] :=
  ⟨realiseObject_eq_nestSegs p v, rfl, rfl⟩

theorem objectMerge_empty_single (a : String) (x : JVal) :
    objectMerge (.obj []) (.obj [(a, x)]) = .obj [(a, x)] := rfl

/-- C4: realising a sub-tree T at a dot-delimited path p, shallow
merging it into the empty mapping, and reading it back with the lens at
the split path yields T again, for every p and T. -/
theorem lens_realise_merge_roundtrip (p : String) (T : JVal) :
    lensPath (jsSplit p '.') (objectMerge (.obj []) (realiseObject p T)) =
      .ok T := by
  rw [realiseObject_eq_nestSegs]
  rcases hsegs : jsSplit p '.' with _ | ⟨s, rest⟩
  · exact absurd hsegs (jsSplit_ne_nil p '.')
  · have hnest : nestSegs (s :: rest) T = .obj [(s, nestSegs rest T)] := rfl
    rw [hnest, objectMerge_empty_single, ← hnest]
    exact lensPath_nestSegs (s :: rest) T (by simp)

theorem nullFree_of_mem_list {xs : List JVal} {v : JVal} (h : v ∈ xs)
    (hx : nullFreeList xs = true) : nullFree v = true := by
  induction xs with
  | nil => cases h
  | cons x rest ih =>
      simp only [nullFreeList, Bool.and_eq_true] at hx
      rcases List.mem_cons.mp h with h1 | h2
      · exact h1 ▸ hx.1
      · exact ih h2 hx.2

theorem nullFree_of_mem_fields {fs : List (String × JVal)} {k : String}
    {v : JVal} (h : (k, v) ∈ fs) (hx : nullFreeFields fs = true) :
    nullFree v = true := by
  induction fs with
  | nil => cases h
  | cons kv rest ih =>
      obtain ⟨k0, v0⟩ := kv
      simp only [nullFreeFields, Bool.and_eq_true] at hx
      rcases List.mem_cons.mp h with h1 | h2
      · cases h1; exact hx.1
      · exact ih h2 hx.2

theorem jsLookup_mem {fs : List (String × JVal)} {k : String} {v : JVal}
    (h : jsLookup fs k = some v) : ∃ k', (k', v) ∈ fs := by
  unfold jsLookup at h
  rcases hf : List.find? (fun kv => decide (kv.1 = k)) fs with _ | kv
  · rw [hf] at h; cases h
  · rw [hf] at h
    cases h
    exact ⟨kv.1, by simpa using List.mem_of_find?_eq_some hf⟩

theorem getProp_ok_of_nullFree {obj : JVal} (k : String)
    (hu : obj ≠ .undefined) (hfree : nullFree obj = true) :
    ∃ v, getProp obj k = .ok v ∧ nullFree v = true := by
  cases obj with
  | undefined => exact absurd rfl hu
  | null => simp [nullFree] at hfree
  | bool b => exact ⟨.undefined, rfl, rfl⟩
  | num n => exact ⟨.undefined, rfl, rfl⟩
  | str s =>
      simp only [getProp]
      split
      · exact ⟨_, rfl, rfl⟩
      · exact ⟨_, rfl, rfl⟩
  | arr xs =>
      simp only [getProp]
      split
      · exact ⟨_, rfl, rfl⟩
      · rcases hpi : parseIndex k with _ | i
        · exact ⟨.undefined, rfl, rfl⟩
        · rcases hg : xs.get? i with _ | v
          · exact ⟨.undefined,
              by simp only [List.get?_eq_getElem?] at hg; simp [hg], rfl⟩
          · refine ⟨v,
              by simp only [List.get?_eq_getElem?] at hg; simp [hg], ?_⟩
            exact nullFree_of_mem_list (List.get?_mem hg)
              (by simpa [nullFree] using hfree)
  | obj fs =>
      simp only [getProp]
      rcases hjl : jsLookup fs k with _ | v
      · exact ⟨.undefined, rfl, rfl⟩
      · refine ⟨v, rfl, ?_⟩
        obtain ⟨k', hk'⟩ := jsLookup_mem hjl
        exact nullFree_of_mem_fields hk' (by simpa [nullFree] using hfree)

theorem lensPath_undef_eq (path : List String) :
    lensPath path .undefined = .ok .null := by
  cases path with
  | nil => rfl
  | cons a l => cases l with | nil => rfl | cons b m => rfl

theorem lensPath_single {obj : JVal} (hu : obj ≠ .undefined) (p : String) :
    lensPath [p] obj = getProp obj p := by
  cases obj <;> first | exact absurd rfl hu | rfl

theorem lensPath_cons {obj : JVal} (hu : obj ≠ .undefined) (p q : String)
    (rest : List String) :
    lensPath (p :: q :: rest) obj =
      (match getProp obj p with
       | .error e => .error e
       | .ok v => lensPath (q :: rest) v) := by
  cases obj <;> first | exact absurd rfl hu | rfl

theorem lensPath_ok_of_nullFree (path : List String) (obj : JVal)
    (hne : path ≠ []) (hfree : nullFree obj = true) :
    ∃ v, lensPath path obj = .ok v := by
  induction path generalizing obj with
  | nil => exact absurd rfl hne
  | cons p rest ih =>
      by_cases hu : obj = .undefined
      · exact ⟨.null, hu ▸ lensPath_undef_eq (p :: rest)⟩
      · cases rest with
        | nil =>
            obtain ⟨v, hv, _⟩ := getProp_ok_of_nullFree p hu hfree
            exact ⟨v, by rw [lensPath_single hu, hv]⟩
        | cons q more =>
            obtain ⟨v, hv, hvfree⟩ := getProp_ok_of_nullFree p hu hfree
            obtain ⟨w, hw⟩ := ih v (by simp) hvfree
            exact ⟨w, by rw [lensPath_cons hu, hv]; exact hw⟩

/-- C1 (amended): for every non-empty path, traversal of a value that
contains no null never faults; an undefined object returns the null
sentinel at once; but a null object at the point of property access
raises a TypeError — null is not guarded by the lens. -/
theorem lensPath_no_fault_unless_null :
    (∀ (path : List String) (obj : JVal), path ≠ [] →
        nullFree obj = true → ∃ v, lensPath path obj = .ok v) ∧
    (∀ path : List String, lensPath path .undefined = .ok .null) ∧
    (∀ (p : String) (rest : List String),
        lensPath (p :: rest) .null = .error .typeError) := by
  refine ⟨lensPath_ok_of_nullFree, lensPath_undef_eq, ?_⟩
  intro p rest
  cases rest with | nil => rfl | cons q more => rfl

/-- Witness for the amended C1 at concrete inputs. -/
theorem lensPath_no_fault_unless_null_witness :
    (∃ v, lensPath ["a", "b"]
        (.obj [("a", .obj [("b", .num (.fin 7))])]) = .ok v) ∧
    lensPath ["x"] .undefined = .ok .null ∧
    lensPath ["x"] .null = .error .typeError :=
  ⟨lensPath_no_fault_unless_null.1 ["a", "b"]
      (.obj [("a", .obj [("b", .num (.fin 7))])]) (by simp) rfl,
    lensPath_no_fault_unless_null.2.1 ["x"],
    lensPath_no_fault_unless_null.2.2 "x" []⟩

/-- C1 counterexample: a null intermediate value makes the lens throw a
TypeError instead of returning the absent sentinel. -/
theorem lensPath_faults_on_null_counterexample :
    lensPath ["a", "b"] (.obj [("a", JVal.null)]) = .error .typeError :=
  rfl

/-- C3 (amended): a debounce value failing the isInteger check — a
non-number, NaN, an infinity, or a non-integral number — is reported,
replaced by the default 0, and the save then runs synchronously with no
timer scheduled; processing never aborts.  (A negative integer passes
the check and is debounced instead: see the counterexample.) -/
theorem invalid_debounce_reported_and_sync (s n d st : JVal) (w : World)
    (h : isInteger d = false) :
    validDebounce d = (DEBOUNCE_DEFAULT, true) ∧
    saveDispatch ⟨s, n, d⟩ st w =
      { w with saveLog := w.saveLog ++
          [{ payload := { states := (validStates s).1,
                          ns := (validNamespace n).1 },
             stateAtSave := st }] } := by
  have hv : validDebounce d = (DEBOUNCE_DEFAULT, true) := by
    simp [validDebounce, h]
  refine ⟨hv, ?_⟩
  simp [saveDispatch, hv, DEBOUNCE_DEFAULT, truthy]

/-- Witness for the amended C3 at a concrete non-integer debounce. -/
theorem invalid_debounce_reported_and_sync_witness :
    isInteger (.str "oops") = false ∧
    (validDebounce (.str "oops") = (DEBOUNCE_DEFAULT, true) ∧
      saveDispatch ⟨.arr [], .str "app", .str "oops"⟩ .null W0 =
        { W0 with saveLog := [{ payload := { states := [], ns := "app" },
                                stateAtSave := .null }] }) :=
  ⟨rfl, invalid_debounce_reported_and_sync (.arr []) (.str "app")
    (.str "oops") .null W0 rfl⟩

/-- C3 counterexample: the debounce value -5 is not a non-negative
integer, yet it passes validation unreported and unreplaced, and the
dispatch schedules a timer instead of saving synchronously. -/
theorem negative_debounce_counterexample :
    isInteger (.num (.fin (-5))) = true ∧
    validDebounce (.num (.fin (-5))) = (.num (.fin (-5)), false) ∧
    (saveDispatch ⟨.arr [], .str "app", .num (.fin (-5))⟩ .null W0).saveLog
      = [] ∧
    (saveDispatch ⟨.arr [], .str "app", .num (.fin (-5))⟩ .null W0).timers
      = [{ id := 1, active := true,
           payload := { states := [], ns := "app" } }] :=
  ⟨by decide, rfl, rfl, rfl⟩

/-- The single storage access the per-path save loop performs for a
resolved selector: write the serialised value when truthy, remove the
namespaced key when falsy. -/
def perPathOp (stringify : JVal → String) (ns : String)
    (p : String × JVal) : StorageOp :=
  if truthy p.2 then .set (ns ++ "_" ++ p.1) (stringify p.2)
  else .remove (ns ++ "_" ++ p.1)

theorem savePerPathAux_ok_characterisation (stringify : JVal → String)
    (ns : String) (root : JVal) :
    ∀ (states : List JVal) (acc ops : List StorageOp),
      savePerPathAux stringify ns root states acc = .ok ops →
      ∃ resolved : List (String × JVal),
        states = resolved.map (fun p => JVal.str p.1) ∧
        (∀ p ∈ resolved, getStateForSessionStorage p.1 root = .ok p.2) ∧
        ops = acc ++ resolved.map (perPathOp stringify ns) := by
  intro states
  induction states with
  | nil =>
      intro acc ops h
      simp only [savePerPathAux, Except.ok.injEq] at h
      exact ⟨[], rfl, by simp, by simp [h]⟩
  | cons sv rest ih =>
      intro acc ops h
      cases sv with
      | str s =>
          simp only [savePerPathAux] at h
          rcases hg : getStateForSessionStorage s root with e | v <;>
            simp only [hg] at h
          · cases h
          · by_cases ht : truthy v = true
            · rw [if_pos ht] at h
              obtain ⟨resolved, h1, h2, h3⟩ := ih _ _ h
              refine ⟨(s, v) :: resolved, by simp [h1], ?_, ?_⟩
              · intro p hp
                rcases List.mem_cons.mp hp with h4 | h4
                · cases h4; exact hg
                · exact h2 p h4
              · simp [h3, perPathOp, ht, List.append_assoc]
            · rw [if_neg ht] at h
              obtain ⟨resolved, h1, h2, h3⟩ := ih _ _ h
              refine ⟨(s, v) :: resolved, by simp [h1], ?_, ?_⟩
              · intro p hp
                rcases List.mem_cons.mp hp with h4 | h4
                · cases h4; exact hg
                · exact h2 p h4
              · simp [h3, perPathOp, ht, List.append_assoc]
      | undefined => cases h
      | null => cases h
      | bool b => cases h
      | num n => cases h
      | arr xs => cases h
      | obj fs => cases h

/-- C2 (amended): in per-path save mode, for every selector in states
the save resolves it through the lens and — when the loop completes
without a fault — emits exactly one storage access per selector, in
order: a write of the JSON serialisation under namespace_path when the
resolved value is truthy, and a removal of namespace_path when it is
falsy.  A value that exists at the path but is falsy (0, false, the
empty string, or null) is therefore removed, not written. -/
theorem save_per_path_truthy_write_falsy_remove (stringify : JVal → String)
    (states : List JVal) (ns : String) (root : JVal) (ops : List StorageOp)
    (hne : states ≠ [])
    (h : saveToStorage stringify states ns root = .ok ops) :
    ∃ resolved : List (String × JVal),
      states = resolved.map (fun p => JVal.str p.1) ∧
      (∀ p ∈ resolved, getStateForSessionStorage p.1 root = .ok p.2) ∧
      ops = resolved.map (perPathOp stringify ns) := by
  unfold saveToStorage at h
  rw [if_neg (by simpa [List.length_eq_zero] using hne)] at h
  obtain ⟨resolved, h1, h2, h3⟩ :=
    savePerPathAux_ok_characterisation stringify ns root states [] ops h
  exact ⟨resolved, h1, h2, by simpa using h3⟩

/-- Witness for the amended C2 at a concrete truthy resolution. -/
theorem save_per_path_truthy_write_falsy_remove_witness :
    ∃ resolved : List (String × JVal),
      [JVal.str "user"] = resolved.map (fun p => JVal.str p.1) ∧
      (∀ p ∈ resolved,
        getStateForSessionStorage p.1
          (.obj [("user", .obj [("name", .str "a")])]) = .ok p.2) ∧
      [StorageOp.set "app_user" "J"] =
        resolved.map (perPathOp (fun _ => "J") "app") :=
  save_per_path_truthy_write_falsy_remove (fun _ => "J") [.str "user"]
    "app" (.obj [("user", .obj [("name", .str "a")])])
    [.set "app_user" "J"] (by simp) rfl

/-- C2 counterexample: the value 0 exists at the selector path (the
lens resolves it, and it is neither null nor undefined), yet the save
removes the key instead of writing the serialisation, because the
source tests the resolved value for truthiness, not presence. -/
theorem save_removes_found_falsy_counterexample :
    getStateForSessionStorage "user" (.obj [("user", .num (.fin 0))]) =
      .ok (.num (.fin 0)) ∧
    JVal.num (.fin 0) ≠ JVal.null ∧
    JVal.num (.fin 0) ≠ JVal.undefined ∧
    saveToStorage (fun _ => "0") [.str "user"] "app"
        (.obj [("user", .num (.fin 0))]) =
      .ok [.remove "app_user"] :=
  ⟨rfl, nofun, nofun, rfl⟩

theorem loadStep_missing_key (parse : String → JVal) (nss s : String)
    (dw : JVal) (store : Store) (acc : LoadResult)
    (h1 : acc.threw = false)
    (h2 : truthyItem (store.getItem (nss ++ "_" ++ s)) = false) :
    loadStep parse nss dw store acc (.str s) =
      { acc with
        ops := acc.ops ++ [.get (nss ++ "_" ++ s)],
        warns := acc.warns ++
          (if truthy dw then [] else [invalidLoadMsg (nss ++ "_" ++ s)]) } := by
  have hkey : jsToString (.str s) = s := by simp [jsToString]
  simp only [loadStep, h1, Bool.false_eq_true, if_false, hkey, h2, warnCall]
  cases htd : truthy dw <;> simp

/-- C6: in per-path load mode, a selector whose namespaced key is
absent (or empty) in the store leaves the accumulated state unchanged
and emits exactly one advisory warning; with warnings disabled the log
collaborator receives no call and the state is still unchanged.  Both
the per-selector step and the whole load call for a single such
selector are characterised. -/
theorem load_missing_key_warns_once (parse : String → JVal)
    (nss s : String) (dw preloaded : JVal) (store : Store)
    (h : truthyItem (store.getItem (nss ++ "_" ++ s)) = false) :
    (∀ acc : LoadResult, acc.threw = false →
      loadStep parse nss dw store acc (.str s) =
        { acc with
          ops := acc.ops ++ [.get (nss ++ "_" ++ s)],
          warns := acc.warns ++
            (if truthy dw then [] else [invalidLoadMsg (nss ++ "_" ++ s)]) }) ∧
    load parse (.arr [.str s]) (.str nss) (.bool false) preloaded dw store =
      { state := preloaded,
        ops := [.get (nss ++ "_" ++ s)],
        warns := if truthy dw then [] else [invalidLoadMsg (nss ++ "_" ++ s)],
        errs := [], threw := false } := by
  refine ⟨fun acc h1 => loadStep_missing_key parse nss s dw store acc h1 h, ?_⟩
  have hbase : load parse (.arr [.str s]) (.str nss) (.bool false)
      preloaded dw store =
      loadStep parse nss dw store
        { state := preloaded, ops := [], warns := [], errs := [],
          threw := false } (.str s) := by
    simp [load, loadBody, isArray, isString]
  rw [hbase, loadStep_missing_key parse nss s dw store _ rfl h]
  simp

/-- Witness for C6, both with warnings enabled and disabled. -/
theorem load_missing_key_warns_once_witness :
    (load (fun _ => .null) (.arr [.str "user"]) (.str "app") (.bool false)
        (.obj [("x", .bool true)]) (.bool false) [] =
      { state := .obj [("x", .bool true)],
        ops := [.get "app_user"],
        warns := [invalidLoadMsg "app_user"],
        errs := [], threw := false }) ∧
    (load (fun _ => .null) (.arr [.str "user"]) (.str "app") (.bool false)
        (.obj [("x", .bool true)]) (.bool true) [] =
      { state := .obj [("x", .bool true)],
        ops := [.get "app_user"],
        warns := [],
        errs := [], threw := false }) :=
  ⟨by simpa using (load_missing_key_warns_once (fun _ => .null) "app" "user"
      (.bool false) (.obj [("x", .bool true)]) [] rfl).2,
   by simpa using (load_missing_key_warns_once (fun _ => .null) "app" "user"
      (.bool true) (.obj [("x", .bool true)]) [] rfl).2⟩

/-- Whether a storage access is a pure read. -/
def isGetOp : StorageOp → Bool
  | .get _ => true
  | _ => false

theorem applyOps_all_get (store : Store) (ops : List StorageOp)
    (h : ops.all isGetOp = true) : applyOps store ops = store := by
  induction ops generalizing store with
  | nil => rfl
  | cons op rest ih =>
      cases op with
      | get k =>
          simp only [List.all_cons, Bool.and_eq_true] at h
          exact ih store h.2
      | set k v => simp [isGetOp] at h
      | remove k => simp [isGetOp] at h

theorem loadStep_ops_all_get (parse : String → JVal) (nss : String)
    (dw : JVal) (store : Store) (acc : LoadResult) (sv : JVal)
    (h : acc.ops.all isGetOp = true) :
    (loadStep parse nss dw store acc sv).ops.all isGetOp = true := by
  unfold loadStep
  split
  · exact h
  · split <;> (dsimp only; split <;> simp [h, isGetOp])

theorem foldl_loadStep_ops_all_get (parse : String → JVal) (nss : String)
    (dw : JVal) (store : Store) :
    ∀ (l : List JVal) (acc : LoadResult), acc.ops.all isGetOp = true →
      ((l.foldl (loadStep parse nss dw store) acc).ops).all isGetOp = true := by
  intro l
  induction l with
  | nil => intro acc h; exact h
  | cons sv rest ih =>
      intro acc h
      exact ih _ (loadStep_ops_all_get parse nss dw store acc sv h)

/-- C10: for every configuration and store contents, load performs only
read accesses on the store, and hence replaying its whole storage trace
on the store leaves the store exactly as it was. -/
theorem load_only_reads_store (parse : String → JVal)
    (states ns immutablejs preloadedState disableWarnings : JVal)
    (store : Store) :
    ((load parse states ns immutablejs preloadedState disableWarnings
        store).ops).all isGetOp = true ∧
    applyOps store
      (load parse states ns immutablejs preloadedState disableWarnings
        store).ops = store := by
  have hbody : ∀ (nss : String) (statesV : List JVal) (base : LoadResult),
      base.ops.all isGetOp = true →
      ((loadBody parse nss disableWarnings store statesV base).ops).all
        isGetOp = true := by
    intro nss statesV base hb
    unfold loadBody
    split
    · split <;> simp [isGetOp]
    · exact foldl_loadStep_ops_all_get _ _ _ _ _ _ hb
  have hall : ((load parse states ns immutablejs preloadedState
      disableWarnings store).ops).all isGetOp = true := by
    unfold load
    exact hbody _ _ _ rfl
  exact ⟨hall, applyOps_all_get store _ hall⟩

theorem string_mk_append (a b : List Char) :
    (String.mk a ++ String.mk b) = String.mk (a ++ b) := rfl

theorem string_length_mk (a : List Char) :
    (String.mk a).length = a.length := rfl

theorem jsSliceTo_eq_iff_prefixed (k n : String) :
    jsSliceTo k n.length = n ↔ ∃ t : String, k = n ++ t := by
  constructor
  · intro h
    cases k with | mk kd =>
    cases n with | mk nd =>
    refine ⟨String.mk (kd.drop nd.length), ?_⟩
    rw [string_mk_append]
    have hd : kd.take nd.length = nd := congrArg String.data h
    refine congrArg String.mk ?_
    conv_lhs => rw [← List.take_append_drop nd.length kd]
    rw [hd]
  · rintro ⟨t, ht⟩
    subst ht
    cases n with | mk nd =>
    cases t with | mk td =>
    rw [string_mk_append]
    exact congrArg String.mk (List.take_left nd td)

/-- C7: with a string namespace, clear removes exactly the keys having
the namespace as a literal character prefix and leaves every other key
and its value untouched; the prefix test is plain string comparison, so
the namespace app also removes a key app2_x. -/
theorem clear_removes_literal_prefix_keys (nsStr : String) (store : Store) :
    (∀ k v, ((k, v) ∈ (clear (.str nsStr) store).1 ↔
        ((k, v) ∈ store ∧ ¬ ∃ t : String, k = nsStr ++ t))) ∧
    (clear (.str nsStr) store).2 = [] ∧
    (clear (.str "app") [("app2_x", "v"), ("app_user", "u"), ("other", "w")]).1
      = [("other", "w")] := by
  have hc : clear (.str nsStr) store =
      (store.filter
        (fun kv => !(decide (jsSliceTo kv.1 nsStr.length = nsStr))), []) := by
    simp [clear, isString]
  refine ⟨?_, by rw [hc], rfl⟩
  intro k v
  rw [hc]
  simp only [List.mem_filter, Bool.not_eq_eq_eq_not, Bool.not_true,
    decide_eq_false_iff_not]
  rw [jsSliceTo_eq_iff_prefixed]

theorem jsLookup_cons (b : String) (w : JVal) (rest : List (String × JVal))
    (k : String) :
    jsLookup ((b, w) :: rest) k = if b = k then some w else jsLookup rest k := by
  by_cases h : b = k <;> simp [jsLookup, List.find?_cons, h]

theorem jsLookup_append (f1 f2 : List (String × JVal)) (k : String) :
    jsLookup (f1 ++ f2) k =
      match jsLookup f1 k with
      | some w => some w
      | none => jsLookup f2 k := by
  induction f1 with
  | nil => simp [jsLookup]
  | cons kv rest ih =>
      obtain ⟨b, w⟩ := kv
      rw [List.cons_append, jsLookup_cons, jsLookup_cons]
      by_cases h : b = k <;> simp [h, ih]

theorem jsLookup_eq_none_of_not_any {fields : List (String × JVal)}
    {a : String} (h : fields.any (fun kv => kv.1 = a) = false) :
    jsLookup fields a = none := by
  induction fields with
  | nil => rfl
  | cons kv rest ih =>
      obtain ⟨b, w⟩ := kv
      simp only [List.any_cons, Bool.or_eq_false_iff] at h
      rw [jsLookup_cons, if_neg (by simpa using h.1)]
      exact ih h.2

theorem jsLookup_isSome_of_any {fields : List (String × JVal)} {a : String}
    (h : fields.any (fun kv => kv.1 = a) = true) :
    ∃ w, jsLookup fields a = some w := by
  induction fields with
  | nil => simp at h
  | cons kv rest ih =>
      obtain ⟨b, w⟩ := kv
      rw [jsLookup_cons]
      by_cases hba : b = a
      · simp [hba]
      · simp only [List.any_cons, Bool.or_eq_true] at h
        rcases h with h | h
        · exact absurd (by simpa using h) hba
        · simpa [hba] using ih h

theorem jsLookup_map_overwrite (fields : List (String × JVal))
    (a k : String) (v : JVal) :
    jsLookup (fields.map (fun kv => if kv.1 = a then (a, v) else kv)) k =
      if a = k then (jsLookup fields a).map (fun _ => v)
      else jsLookup fields k := by
  induction fields with
  | nil => by_cases h : a = k <;> simp [jsLookup, h]
  | cons kv rest ih =>
      obtain ⟨b, w⟩ := kv
      simp only [List.map_cons]
      by_cases hba : b = a
      · subst hba
        by_cases hbk : b = k
        · subst hbk
          simp [jsLookup_cons]
        · simp [jsLookup_cons, hbk, ih]
      · by_cases hbk : b = k
        · subst hbk
          have hak : ¬a = b := fun h => hba h.symm
          simp [jsLookup_cons, hba, hak]
        · simp [jsLookup_cons, hba, hbk, ih]

theorem jsLookup_setKey (fields : List (String × JVal)) (a k : String)
    (v : JVal) :
    jsLookup (setKey fields a v) k =
      if a = k then some v else jsLookup fields k := by
  unfold setKey
  by_cases hany : fields.any (fun kv => kv.1 = a) = true
  · rw [if_pos hany, jsLookup_map_overwrite]
    by_cases hak : a = k
    · subst hak
      obtain ⟨w, hw⟩ := jsLookup_isSome_of_any hany
      simp [hw]
    · simp [hak]
  · rw [if_neg hany, jsLookup_append]
    have hany' : fields.any (fun kv => kv.1 = a) = false :=
      eq_false_of_ne_true hany
    by_cases hak : a = k
    · subst hak
      rw [jsLookup_eq_none_of_not_any hany']
      simp [jsLookup_cons]
    · rcases hl : jsLookup fields k with _ | w <;>
        simp [hl, jsLookup_cons, hak, jsLookup]

theorem jsLookup_foldl_setKey (es : List (String × JVal)) (k : String) :
    ∀ acc : List (String × JVal), (es.map Prod.fst).Nodup →
      jsLookup (es.foldl (fun f kv => setKey f kv.1 kv.2) acc) k =
        match jsLookup es k with
        | some v => some v
        | none => jsLookup acc k := by
  induction es with
  | nil => intro acc _; simp [jsLookup]
  | cons kv rest ih =>
      intro acc hnd
      obtain ⟨a, v⟩ := kv
      simp only [List.map_cons, List.nodup_cons] at hnd
      rw [List.foldl_cons, ih _ hnd.2, jsLookup_cons]
      by_cases hak : a = k
      · subst hak
        have hnone : jsLookup rest a = none := by
          apply jsLookup_eq_none_of_not_any
          simp only [List.any_eq_false]
          intro kv hkv h
          exact hnd.1 (List.mem_map.mpr ⟨kv, hkv, by simpa using h⟩)
        simp [hnone, jsLookup_setKey]
      · rw [if_neg hak]
        rcases hrest : jsLookup rest k with _ | w
        · simp [jsLookup_setKey, hak]
        · simp

/-- The binding the spec predicts for a key after combineLoads: the
value in the last argument that is a non-null object binding that key
(later arguments win; replaced invalid arguments bind nothing). -/
def lastTopLevelBinding (loads : List JVal) (k : String) : Option JVal :=
  loads.reverse.findSome?
    (fun l => if isObject l then jsLookup (entriesForIn l) k else none)

theorem combineLoads_foldl_split (loads : List JVal) :
    ∀ (f : List (String × JVal)) (e : List String),
      loads.foldl
        (fun (acc : List (String × JVal) × List String) (l : JVal) =>
          let errs :=
            if !(isObject l) then acc.2 ++ [combineLoadsErrMsg] else acc.2
          (assignEntries acc.1 (validifyLoad l), errs))
        (f, e) =
      (loads.foldl (fun fl l => assignEntries fl (validifyLoad l)) f,
       e ++ (loads.filter (fun l => !(isObject l))).map
         (fun _ => combineLoadsErrMsg)) := by
  induction loads with
  | nil => intro f e; simp
  | cons l rest ih =>
      intro f e
      rw [List.foldl_cons, List.foldl_cons, ih]
      by_cases hio : isObject l = true <;> simp [hio, List.filter_cons]

theorem jsLookup_combineFold (k : String) :
    ∀ (loads : List JVal) (acc : List (String × JVal)),
      (∀ l ∈ loads, ((entriesForIn (validifyLoad l)).map Prod.fst).Nodup) →
      jsLookup (loads.foldl (fun fl l => assignEntries fl (validifyLoad l))
          acc) k =
        match lastTopLevelBinding loads k with
        | some v => some v
        | none => jsLookup acc k := by
  intro loads
  induction loads with
  | nil => intro acc _; simp [lastTopLevelBinding]
  | cons l rest ih =>
      intro acc hnd
      rw [List.foldl_cons,
        ih _ (fun x hx => hnd x (List.mem_cons_of_mem _ hx))]
      have hl : jsLookup (entriesForIn (validifyLoad l)) k =
          (if isObject l then jsLookup (entriesForIn l) k else none) := by
        by_cases hio : isObject l = true <;>
          simp [validifyLoad, hio, entriesForIn, jsLookup]
      have hassign : jsLookup (assignEntries acc (validifyLoad l)) k =
          match jsLookup (entriesForIn (validifyLoad l)) k with
          | some v => some v
          | none => jsLookup acc k :=
        jsLookup_foldl_setKey _ k acc (hnd l (List.mem_cons_self l rest))
      simp only [lastTopLevelBinding, List.reverse_cons,
        List.findSome?_append, List.findSome?_cons, List.findSome?_nil]
      rcases hrest :
          List.findSome? (fun l =>
            if isObject l = true then jsLookup (entriesForIn l) k else none)
            rest.reverse with _ | w
      · simp only [hrest, Option.none_or]
        rw [hassign, hl]
        rcases hfl : (if isObject l = true then jsLookup (entriesForIn l) k
            else none) with _ | u <;> simp [hfl]
      · simp [hrest]

/-- C8: combineLoads folds its arguments in order into one mapping by
top-level key overwrite, later arguments winning key conflicts; every
argument that is not a non-null object is replaced by the empty
mapping with one console report recorded per such argument, and
processing continues; the concrete example folds to the mapping the
spec states. -/
theorem combineLoads_later_wins (loads : List JVal)
    (hnd : ∀ l ∈ loads,
      ((entriesForIn (validifyLoad l)).map Prod.fst).Nodup) :
    (∀ k, jsLookup (entriesOf (combineLoads loads).1) k =
        lastTopLevelBinding loads k) ∧
    (combineLoads loads).2 =
      (loads.filter (fun l => !(isObject l))).map
        (fun _ => combineLoadsErrMsg) ∧
    (combineLoads [.obj [("a", .num (.fin 1))], .obj [("b", .num (.fin 2))],
        .obj [("a", .num (.fin 3))]]).1 =
      .obj [("a", .num (.fin 3)), ("b", .num (.fin 2))] := by
  have hsplit := combineLoads_foldl_split loads [] []
  have h1 : (combineLoads loads).1 =
      .obj (loads.foldl (fun fl l => assignEntries fl (validifyLoad l))
        []) := by
    unfold combineLoads
    rw [hsplit]
  have h2 : (combineLoads loads).2 =
      (loads.filter (fun l => !(isObject l))).map
        (fun _ => combineLoadsErrMsg) := by
    unfold combineLoads
    rw [hsplit]
    simp
  refine ⟨?_, h2, rfl⟩
  intro k
  rw [h1]
  have hfold := jsLookup_combineFold k loads [] hnd
  have hent : entriesOf (JVal.obj
      (loads.foldl (fun fl l => assignEntries fl (validifyLoad l)) [])) =
      loads.foldl (fun fl l => assignEntries fl (validifyLoad l)) [] := rfl
  rw [hent, hfold]
  rcases lastTopLevelBinding loads k with _ | v <;> simp [jsLookup]

/-- Witness for C8 at the concrete example arguments. -/
theorem combineLoads_later_wins_witness :
    (∀ k, jsLookup (entriesOf (combineLoads
        [.obj [("a", .num (.fin 1))], .obj [("b", .num (.fin 2))],
          .obj [("a", .num (.fin 3))]]).1) k =
      lastTopLevelBinding
        [.obj [("a", .num (.fin 1))], .obj [("b", .num (.fin 2))],
          .obj [("a", .num (.fin 3))]] k) ∧
    (combineLoads [.obj [("a", .num (.fin 1))], .obj [("b", .num (.fin 2))],
        .obj [("a", .num (.fin 3))]]).2 =
      ([JVal.obj [("a", .num (.fin 1))], .obj [("b", .num (.fin 2))],
        .obj [("a", .num (.fin 3))]].filter (fun l => !(isObject l))).map
        (fun _ => combineLoadsErrMsg) ∧
    (combineLoads [.obj [("a", .num (.fin 1))], .obj [("b", .num (.fin 2))],
        .obj [("a", .num (.fin 3))]]).1 =
      .obj [("a", .num (.fin 3)), ("b", .num (.fin 2))] :=
  combineLoads_later_wins
    [.obj [("a", .num (.fin 1))], .obj [("b", .num (.fin 2))],
      .obj [("a", .num (.fin 3))]] (by decide)

/-- Safety invariant of the debounce slot: every still-pending timer is
the one whose handle the module-level debounceTimeout variable stores,
all issued handles are below the next fresh handle, and handles are
unique. -/
structure WInv (w : World) : Prop where
  pointed : ∀ t ∈ w.timers, t.active = true → w.debounceTimeout = some t.id
  fresh : ∀ t ∈ w.timers, t.id < w.nextId
  nodup : (w.timers.map TimerEntry.id).Nodup

theorem winv_W0 : WInv W0 :=
  ⟨by simp [W0], by simp [W0], by simp [W0]⟩

/-- The timer a debounced dispatch schedules. -/
def newEntry (w : World) (cfg : SaveCfg) : TimerEntry :=
  { id := w.nextId, active := true,
    payload := { states := (validStates cfg.states).1,
                 ns := (validNamespace cfg.ns).1 } }

theorem clearTimeoutW_map_id (w : World) (id : Nat) :
    (clearTimeoutW w id).timers.map TimerEntry.id =
      w.timers.map TimerEntry.id := by
  simp only [clearTimeoutW, List.map_map]
  apply List.map_congr_left
  intro t ht
  by_cases h : t.id = id <;> simp [Function.comp, h]

theorem mem_clearTimeoutW {w : World} {id : Nat} {t' : TimerEntry}
    (h : t' ∈ (clearTimeoutW w id).timers) :
    ∃ t ∈ w.timers,
      t' = if t.id = id then { t with active := false } else t := by
  simp only [clearTimeoutW, List.mem_map] at h
  obtain ⟨t, ht, hf⟩ := h
  exact ⟨t, ht, hf.symm⟩

theorem saveDispatch_sync (cfg : SaveCfg) (st : JVal) (w : World)
    (htr : truthy (validDebounce cfg.debounce).1 = false) :
    saveDispatch cfg st w =
      { w with saveLog := w.saveLog ++
          [{ payload := { states := (validStates cfg.states).1,
                          ns := (validNamespace cfg.ns).1 },
             stateAtSave := st }] } := by
  simp [saveDispatch, htr]

theorem saveDispatch_debounced_none (cfg : SaveCfg) (st : JVal) (w : World)
    (htr : truthy (validDebounce cfg.debounce).1 = true)
    (hdb : w.debounceTimeout = none) :
    saveDispatch cfg st w =
      { nextId := w.nextId + 1,
        timers := w.timers ++ [newEntry w cfg],
        debounceTimeout := some w.nextId,
        saveLog := w.saveLog } := by
  simp [saveDispatch, htr, hdb, newEntry]

theorem saveDispatch_debounced_some (cfg : SaveCfg) (st : JVal) (w : World)
    (oldId : Nat) (htr : truthy (validDebounce cfg.debounce).1 = true)
    (hdb : w.debounceTimeout = some oldId) :
    saveDispatch cfg st w =
      { nextId := w.nextId + 1,
        timers := (clearTimeoutW w oldId).timers ++ [newEntry w cfg],
        debounceTimeout := some w.nextId,
        saveLog := w.saveLog } := by
  simp [saveDispatch, htr, hdb, newEntry, clearTimeoutW]

theorem winv_saveDispatch (cfg : SaveCfg) (st : JVal) (w : World)
    (h : WInv w) : WInv (saveDispatch cfg st w) := by
  by_cases htr : truthy (validDebounce cfg.debounce).1 = true
  · rcases hdb : w.debounceTimeout with _ | oldId
    · rw [saveDispatch_debounced_none cfg st w htr hdb]
      refine ⟨?_, ?_, ?_⟩
      · intro t ht hact
        rcases List.mem_append.mp ht with hin | hin
        · have hp := h.pointed t hin hact
          rw [hdb] at hp
          cases hp
        · rw [List.mem_singleton.mp hin]
          rfl
      · intro t ht
        rcases List.mem_append.mp ht with hin | hin
        · exact Nat.lt_succ_of_lt (h.fresh t hin)
        · rw [List.mem_singleton.mp hin]
          exact Nat.lt_succ_self _
      · rw [List.map_append, List.nodup_append]
        refine ⟨h.nodup, by simp, ?_⟩
        intro x hx hx2
        simp only [newEntry, List.map_cons, List.map_nil,
          List.mem_singleton] at hx2
        obtain ⟨t, ht, rfl⟩ := List.mem_map.mp hx
        exact absurd (hx2 ▸ h.fresh t ht) (Nat.lt_irrefl _)
    · rw [saveDispatch_debounced_some cfg st w oldId htr hdb]
      refine ⟨?_, ?_, ?_⟩
      · intro t ht hact
        rcases List.mem_append.mp ht with hin | hin
        · obtain ⟨t0, ht0, hf⟩ := mem_clearTimeoutW hin
          by_cases hid : t0.id = oldId
          · rw [hf, if_pos hid] at hact
            simp at hact
          · rw [hf, if_neg hid] at hact
            have hp := h.pointed t0 ht0 hact
            rw [hdb] at hp
            exact absurd (by injection hp with h2; exact h2.symm) hid
        · rw [List.mem_singleton.mp hin]
          rfl
      · intro t ht
        rcases List.mem_append.mp ht with hin | hin
        · obtain ⟨t0, ht0, hf⟩ := mem_clearTimeoutW hin
          have hlt := h.fresh t0 ht0
          by_cases hid : t0.id = oldId
          · rw [hf, if_pos hid]
            exact Nat.lt_succ_of_lt hlt
          · rw [hf, if_neg hid]
            exact Nat.lt_succ_of_lt hlt
        · rw [List.mem_singleton.mp hin]
          exact Nat.lt_succ_self _
      · rw [List.map_append, List.nodup_append, clearTimeoutW_map_id]
        refine ⟨h.nodup, by simp, ?_⟩
        intro x hx hx2
        simp only [newEntry, List.map_cons, List.map_nil,
          List.mem_singleton] at hx2
        obtain ⟨t, ht, rfl⟩ := List.mem_map.mp hx
        exact absurd (hx2 ▸ h.fresh t ht) (Nat.lt_irrefl _)
  · rw [saveDispatch_sync cfg st w (eq_false_of_ne_true htr)]
    exact ⟨h.pointed, h.fresh, h.nodup⟩

theorem winv_fireTimer (id : Nat) (st : JVal) (w : World)
    (h : WInv w) : WInv (fireTimer id st w) := by
  unfold fireTimer
  split
  · split
    · refine ⟨?_, ?_, ?_⟩
      · intro t' ht' hact
        obtain ⟨t0, ht0, hf⟩ := List.mem_map.mp ht'
        by_cases hid : t0.id = id
        · rw [← hf, if_pos hid] at hact
          simp at hact
        · rw [← hf, if_neg hid] at hact ⊢
          exact h.pointed t0 ht0 hact
      · intro t' ht'
        obtain ⟨t0, ht0, hf⟩ := List.mem_map.mp ht'
        have hlt := h.fresh t0 ht0
        by_cases hid : t0.id = id
        · rw [← hf, if_pos hid]
          exact hlt
        · rw [← hf, if_neg hid]
          exact hlt
      · have hmap : (w.timers.map
            (fun u => if u.id = id then { u with active := false } else u)).map
              TimerEntry.id = w.timers.map TimerEntry.id := by
          rw [List.map_map]
          apply List.map_congr_left
          intro t ht
          by_cases hid : t.id = id <;> simp [Function.comp, hid]
        rw [hmap]
        exact h.nodup
    · exact h
  · exact h

theorem winv_runWorld (l : List WStep) : WInv (runWorld W0 l) := by
  suffices hgen : ∀ w, WInv w → WInv (runWorld w l) from hgen W0 winv_W0
  induction l with
  | nil => intro w h; exact h
  | cons s rest ih =>
      intro w h
      cases s with
      | dispatch cfg st => exact ih _ (winv_saveDispatch cfg st w h)
      | fire id st => exact ih _ (winv_fireTimer id st w h)

theorem activeTimers_length_le_one {w : World} (h : WInv w) :
    (activeTimers w).length ≤ 1 := by
  rcases hat : activeTimers w with _ | ⟨t, rest⟩
  · simp
  · rcases rest with _ | ⟨u, rest2⟩
    · simp
    · exfalso
      have hsub : ((activeTimers w).map TimerEntry.id).Sublist
          (w.timers.map TimerEntry.id) :=
        (List.filter_sublist w.timers).map TimerEntry.id
      have hnd : ((activeTimers w).map TimerEntry.id).Nodup :=
        h.nodup.sublist hsub
      rw [hat] at hnd
      have htmem : t ∈ activeTimers w := by
        rw [hat]; exact List.mem_cons_self _ _
      have humem : u ∈ activeTimers w := by
        rw [hat]; exact List.mem_cons_of_mem _ (List.mem_cons_self _ _)
      obtain ⟨ht1, ht2⟩ := List.mem_filter.mp htmem
      obtain ⟨hu1, hu2⟩ := List.mem_filter.mp humem
      have hpt := h.pointed t ht1 (by simpa using ht2)
      have hpu := h.pointed u hu1 (by simpa using hu2)
      have hid : t.id = u.id := by
        rw [hpt] at hpu
        injection hpu
      simp only [List.map_cons, List.nodup_cons] at hnd
      exact hnd.1 (by rw [hid]; exact List.mem_cons_self _ _)

theorem filter_active_nil_of_none {w : World} (hinv : WInv w)
    (hdb : w.debounceTimeout = none) :
    w.timers.filter (fun t => t.active) = [] := by
  rw [List.filter_eq_nil_iff]
  intro t ht hact
  replace hact : t.active = true := by simpa using hact
  have hp := hinv.pointed t ht hact
  rw [hdb] at hp
  cases hp

theorem filter_active_nil_of_clear {w : World} (hinv : WInv w) {oldId : Nat}
    (hdb : w.debounceTimeout = some oldId) :
    (clearTimeoutW w oldId).timers.filter (fun t => t.active) = [] := by
  rw [List.filter_eq_nil_iff]
  intro t' ht' hact
  replace hact : t'.active = true := by simpa using hact
  obtain ⟨t, ht, hf⟩ := mem_clearTimeoutW ht'
  by_cases hid : t.id = oldId
  · rw [hf, if_pos hid] at hact
    simp at hact
  · rw [hf, if_neg hid] at hact
    have hp := hinv.pointed t ht hact
    rw [hdb] at hp
    exact hid (by injection hp with h2; exact h2.symm)

/-- After a debounced dispatch the only pending timer is the newly
scheduled one. -/
theorem activeTimers_saveDispatch (cfg : SaveCfg) (st : JVal) (w : World)
    (hinv : WInv w) (htr : truthy (validDebounce cfg.debounce).1 = true) :
    activeTimers (saveDispatch cfg st w) = [newEntry w cfg] := by
  rcases hdb : w.debounceTimeout with _ | oldId
  · rw [saveDispatch_debounced_none cfg st w htr hdb]
    show (w.timers ++ [newEntry w cfg]).filter (fun t => t.active) = _
    rw [List.filter_append, filter_active_nil_of_none hinv hdb]
    simp [newEntry]
  · rw [saveDispatch_debounced_some cfg st w oldId htr hdb]
    show ((clearTimeoutW w oldId).timers ++ [newEntry w cfg]).filter
      (fun t => t.active) = _
    rw [List.filter_append, filter_active_nil_of_clear hinv hdb]
    simp [newEntry]

/-- Every pending timer predates the newly issued handle. -/
theorem active_id_ne_nextId {w : World} (hinv : WInv w) :
    ∀ t ∈ activeTimers w, t.id ≠ w.nextId := by
  intro t ht
  obtain ⟨ht1, _⟩ := List.mem_filter.mp ht
  exact Nat.ne_of_lt (hinv.fresh t ht1)

theorem saveDispatch_debounced_saveLog (cfg : SaveCfg) (st : JVal)
    (w : World) (htr : truthy (validDebounce cfg.debounce).1 = true) :
    (saveDispatch cfg st w).saveLog = w.saveLog := by
  rcases hdb : w.debounceTimeout with _ | oldId
  · rw [saveDispatch_debounced_none cfg st w htr hdb]
  · rw [saveDispatch_debounced_some cfg st w oldId htr hdb]

theorem fireTimer_saveLog_of_find_active {w : World} {id : Nat}
    {t : TimerEntry} (σ : JVal)
    (hfind : w.timers.find? (fun t => t.id = id) = some t)
    (hact : t.active = true) :
    (fireTimer id σ w).saveLog =
      w.saveLog ++ [{ payload := t.payload, stateAtSave := σ }] := by
  simp [fireTimer, hfind, hact]

theorem fireTimer_noop_of_find_inactive {w : World} {id : Nat}
    {t : TimerEntry} (σ : JVal)
    (hfind : w.timers.find? (fun t => t.id = id) = some t)
    (hinact : t.active = false) :
    fireTimer id σ w = w := by
  simp [fireTimer, hfind, hinact]

theorem fireTimer_noop_of_find_none {w : World} {id : Nat} (σ : JVal)
    (hfind : w.timers.find? (fun t => t.id = id) = none) :
    fireTimer id σ w = w := by
  simp [fireTimer, hfind]

theorem find?_saveDispatch_new (cfg : SaveCfg) (st : JVal) (w : World)
    (hinv : WInv w) (htr : truthy (validDebounce cfg.debounce).1 = true) :
    (saveDispatch cfg st w).timers.find? (fun t => t.id = w.nextId) =
      some (newEntry w cfg) := by
  rcases hdb : w.debounceTimeout with _ | oldId
  · rw [saveDispatch_debounced_none cfg st w htr hdb]
    show (w.timers ++ [newEntry w cfg]).find? _ = _
    rw [List.find?_append]
    have hpre : w.timers.find? (fun t => decide (t.id = w.nextId)) = none := by
      rw [List.find?_eq_none]
      intro t ht
      simp only [decide_eq_true_eq]
      exact Nat.ne_of_lt (hinv.fresh t ht)
    rw [hpre]
    simp [newEntry]
  · rw [saveDispatch_debounced_some cfg st w oldId htr hdb]
    show ((clearTimeoutW w oldId).timers ++ [newEntry w cfg]).find? _ = _
    rw [List.find?_append]
    have hpre : (clearTimeoutW w oldId).timers.find?
        (fun t => decide (t.id = w.nextId)) = none := by
      rw [List.find?_eq_none]
      intro t' ht'
      obtain ⟨t0, ht0, hf⟩ := mem_clearTimeoutW ht'
      have hideq : t'.id = t0.id := by
        by_cases hid : t0.id = oldId <;> rw [hf] <;> simp [hid]
      simp only [decide_eq_true_eq, hideq]
      exact Nat.ne_of_lt (hinv.fresh t0 ht0)
    rw [hpre]
    simp [newEntry]

theorem fireTimer_new_fires (cfg : SaveCfg) (st σ : JVal) (w : World)
    (hinv : WInv w) (htr : truthy (validDebounce cfg.debounce).1 = true) :
    (fireTimer w.nextId σ (saveDispatch cfg st w)).saveLog =
      (saveDispatch cfg st w).saveLog ++
        [{ payload := (newEntry w cfg).payload, stateAtSave := σ }] :=
  fireTimer_saveLog_of_find_active σ
    (find?_saveDispatch_new cfg st w hinv htr) rfl

theorem fireTimer_other_noop (cfg : SaveCfg) (st σ : JVal) (w : World)
    (j : Nat) (hinv : WInv w)
    (htr : truthy (validDebounce cfg.debounce).1 = true)
    (hne : j ≠ w.nextId) :
    (fireTimer j σ (saveDispatch cfg st w)).saveLog =
      (saveDispatch cfg st w).saveLog := by
  rcases hfind : (saveDispatch cfg st w).timers.find?
      (fun t => t.id = j) with _ | t
  · rw [fireTimer_noop_of_find_none σ hfind]
  · have hmem := List.mem_of_find?_eq_some hfind
    have htid : t.id = j := by simpa using List.find?_some hfind
    rcases hact : t.active with _ | _
    · rw [fireTimer_noop_of_find_inactive σ hfind hact]
    · exfalso
      have hin : t ∈ activeTimers (saveDispatch cfg st w) :=
        List.mem_filter.mpr ⟨hmem, by simp [hact]⟩
      rw [activeTimers_saveDispatch cfg st w hinv htr] at hin
      have hteq := List.mem_singleton.mp hin
      rw [hteq] at htid
      exact hne (htid ▸ rfl)

/-- C9: in every reachable execution at most one pending save timer
exists; a debounced save request leaves exactly the newly scheduled
timer pending (every previously pending one has an older handle and is
deactivated), performs no save at dispatch time, and when the new
timer fires exactly one save execution occurs, carrying the validated
payload of that latest request and the state read fresh at fire time;
firing any other handle performs no save. -/
theorem debounce_single_slot (l : List WStep) :
    (activeTimers (runWorld W0 l)).length ≤ 1 ∧
    (∀ (cfg : SaveCfg) (st σ : JVal),
      truthy (validDebounce cfg.debounce).1 = true →
      activeTimers (saveDispatch cfg st (runWorld W0 l)) =
        [newEntry (runWorld W0 l) cfg] ∧
      (∀ t ∈ activeTimers (runWorld W0 l),
        t.id ≠ (runWorld W0 l).nextId) ∧
      (saveDispatch cfg st (runWorld W0 l)).saveLog =
        (runWorld W0 l).saveLog ∧
      (fireTimer (runWorld W0 l).nextId σ
          (saveDispatch cfg st (runWorld W0 l))).saveLog =
        (saveDispatch cfg st (runWorld W0 l)).saveLog ++
          [{ payload := (newEntry (runWorld W0 l) cfg).payload,
             stateAtSave := σ }] ∧
      (∀ j, j ≠ (runWorld W0 l).nextId →
        (fireTimer j σ (saveDispatch cfg st (runWorld W0 l))).saveLog =
          (saveDispatch cfg st (runWorld W0 l)).saveLog)) := by
  have hinv := winv_runWorld l
  refine ⟨activeTimers_length_le_one hinv, ?_⟩
  intro cfg st σ htr
  exact ⟨activeTimers_saveDispatch cfg st _ hinv htr,
    active_id_ne_nextId hinv,
    saveDispatch_debounced_saveLog cfg st _ htr,
    fireTimer_new_fires cfg st σ _ hinv htr,
    fun j hj => fireTimer_other_noop cfg st σ _ j hinv htr hj⟩

/-- Witness for C9 at the empty history and a concrete debounced
configuration. -/
theorem debounce_single_slot_witness :
    (activeTimers (runWorld W0 [])).length ≤ 1 ∧
    (activeTimers (saveDispatch ⟨.arr [], .str "app", .num (.fin 500)⟩
        .null (runWorld W0 [])) =
      [newEntry (runWorld W0 []) ⟨.arr [], .str "app", .num (.fin 500)⟩] ∧
    (∀ t ∈ activeTimers (runWorld W0 []),
      t.id ≠ (runWorld W0 []).nextId) ∧
    (saveDispatch ⟨.arr [], .str "app", .num (.fin 500)⟩ .null
        (runWorld W0 [])).saveLog = (runWorld W0 []).saveLog ∧
    (fireTimer (runWorld W0 []).nextId (.obj [("user", .str "x")])
        (saveDispatch ⟨.arr [], .str "app", .num (.fin 500)⟩ .null
          (runWorld W0 []))).saveLog =
      (saveDispatch ⟨.arr [], .str "app", .num (.fin 500)⟩ .null
        (runWorld W0 [])).saveLog ++
        [{ payload := (newEntry (runWorld W0 [])
            ⟨.arr [], .str "app", .num (.fin 500)⟩).payload,
           stateAtSave := .obj [("user", .str "x")] }] ∧
    (∀ j, j ≠ (runWorld W0 []).nextId →
      (fireTimer j (.obj [("user", .str "x")])
          (saveDispatch ⟨.arr [], .str "app", .num (.fin 500)⟩ .null
            (runWorld W0 []))).saveLog =
        (saveDispatch ⟨.arr [], .str "app", .num (.fin 500)⟩ .null
          (runWorld W0 [])).saveLog)) :=
  ⟨(debounce_single_slot []).1,
   (debounce_single_slot []).2 ⟨.arr [], .str "app", .num (.fin 500)⟩
     .null (.obj [("user", .str "x")]) (by decide)⟩
